import Mathlib

/-!
Verification development for the differentially-private SQL query layer
demonstrated in src/datasets/smartnoise-samples/data/SQL Queries.ipynb.

The repository contains the demo notebook (with its recorded inputs and
outputs); the engine itself (CollectionMetadata, PandasReader,
PrivateReader) is specified in spec.md but its code is not in the
repository, so the engine is modelled here from the spec, and the
notebook's recorded cell outputs are embedded verbatim as transcript data.
-/

set_option autoImplicit false

namespace PgMgmt

/-- Declared column type, from spec section 3: integer, float, boolean,
categorical, or unbounded-numeric. -/
inductive ColType where
  | int
  | float
  | boolean
  | categorical
  | unboundedNumeric
  deriving DecidableEq

/-- Modelled from the spec: a Column Descriptor of the Schema Metadata
(spec section 3): name, declared type, optional declared numeric range,
cardinality hint, and the private-identifier flag. The engine code holding
this structure (CollectionMetadata) is not in the repository. -/
structure ColumnDescriptor where
  name : String
  ctype : ColType
  range : Option (Rat × Rat)
  card : Nat
  isIdentifier : Bool
  deriving DecidableEq

/-- Whether a declared type is numeric (usable in SUM/AVG/MIN/MAX). -/
def numericType : ColType → Bool
  | .int => true
  | .float => true
  | .unboundedNumeric => true
  | .boolean => false
  | .categorical => false

/-- Error taxonomy from spec section 7. -/
inductive QueryError where
  | UnsupportedQuery
  | MissingRange
  | InvalidBudget
  | ExecutionError
  | NotFound
  deriving DecidableEq

/-- Modelled from the spec: the supported aggregate function set
of spec section 4.2. -/
inductive AggFn where
  | count
  | sum
  | avg
  | min
  | max
  deriving DecidableEq

/-- Modelled from the spec: column lookup of spec section 4.1,
failing with NotFound. -/
def column (schema : List ColumnDescriptor) (nm : String) :
    Except QueryError ColumnDescriptor :=
  match schema.find? (fun c => c.name == nm) with
  | some c => .ok c
  | none => .error .NotFound

/-- Modelled from the spec: the sensitivity computation of spec
section 4.3 (the Calibrator's code is not in the repository).
COUNT has sensitivity 1 independent of range; SUM (and the SUM component
of AVG) uses max(abs lo, abs hi) of the declared range, failing with
MissingRange when no finite range is declared; MIN/MAX use hi - lo. -/
def sensitivity (fn : AggFn) (c : ColumnDescriptor) : Except QueryError Rat :=
  match fn with
  | .count => .ok 1
  | .sum =>
    match c.range with
    | some (lo, hi) => .ok (Max.max |lo| |hi|)
    | none => .error .MissingRange
  | .avg =>
    match c.range with
    | some (lo, hi) => .ok (Max.max |lo| |hi|)
    | none => .error .MissingRange
  | .min =>
    match c.range with
    | some (lo, hi) => .ok (hi - lo)
    | none => .error .MissingRange
  | .max =>
    match c.range with
    | some (lo, hi) => .ok (hi - lo)
    | none => .error .MissingRange

/-- PUMS metadata, from notebook cell-12: age [int] (0,100). -/
def ageCol : ColumnDescriptor := ⟨"age", .int, some (0, 100), 0, false⟩

/-- PUMS metadata, from notebook cell-12: sex (card: 0). -/
def sexCol : ColumnDescriptor := ⟨"sex", .categorical, none, 0, false⟩

/-- PUMS metadata, from notebook cell-12: educ [int] (unbounded). -/
def educCol : ColumnDescriptor := ⟨"educ", .int, none, 0, false⟩

/-- PUMS metadata, from notebook cell-12: race (card: 0). -/
def raceCol : ColumnDescriptor := ⟨"race", .categorical, none, 0, false⟩

/-- PUMS metadata, from notebook cell-12: income [int] (0,500000). -/
def incomeCol : ColumnDescriptor := ⟨"income", .int, some (0, 500000), 0, false⟩

/-- PUMS metadata, from notebook cell-12: married (boolean). -/
def marriedCol : ColumnDescriptor := ⟨"married", .boolean, none, 0, false⟩

/-- PUMS metadata, from notebook cell-12: *pid [int] (unbounded),
the private identifier. -/
def pidCol : ColumnDescriptor := ⟨"pid", .int, none, 0, true⟩

/-- The PUMS.PUMS schema as printed by notebook cell-12. -/
def pumsSchema : List ColumnDescriptor :=
  [ageCol, sexCol, educCol, raceCol, incomeCol, marriedCol, pidCol]

/-- Argument of an aggregate expression: star, a named column, or a nested
aggregate (which the analyzer must reject, spec section 4.2). -/
inductive AggArg where
  | star
  | col (name : String)
  | nestedAgg (fn : AggFn) (arg : AggArg)
  deriving DecidableEq

/-- Modelled from the spec: the closed set of tagged query-shape variants
that spec section 9 prescribes for the Query Analyzer (the parser itself is
not in the repository, so SQL text is represented by its parsed shape):
a supported aggregation over GROUP BY, a plain SELECT, a query containing a
subquery, and a join across tables without declared relationship metadata. -/
inductive QueryShape where
  | aggregate (table : String) (groupBy : List String)
      (selectAggs : List (String × AggFn × AggArg))
  | plainSelect (table : String) (cols : List String)
  | subquery (outer : QueryShape)
  | joinNoRelationship (left right : String)
  deriving DecidableEq

/-- Modelled from the spec: the transient Query Descriptor of spec
section 3: target table, GROUP BY columns, and the (output name,
aggregate function, source) list of the SELECT output. -/
structure QueryDescriptor where
  table : String
  groupBy : List String
  aggs : List (String × AggFn × AggArg)
  deriving DecidableEq

/-- Whether the aggregate function needs a declared numeric source column
(SUM/AVG/MIN/MAX, spec section 4.2). -/
def sumLike : AggFn → Bool
  | .count => false
  | .sum => true
  | .avg => true
  | .min => true
  | .max => true

/-- Modelled from the spec: admissibility of one aggregate expression
(spec section 4.2): nested aggregates are rejected; star is allowed only
for COUNT; a named column must be declared, and for SUM/AVG/MIN/MAX it must
additionally be numeric and carry the range metadata section 4.3 needs. -/
def admissibleAgg (schema : List ColumnDescriptor) (fn : AggFn)
    (arg : AggArg) : Bool :=
  match arg with
  | .nestedAgg _ _ => false
  | .star =>
    match fn with
    | .count => true
    | _ => false
  | .col nm =>
    match schema.find? (fun c => c.name == nm) with
    | none => false
    | some c =>
      match fn with
      | .count => true
      | _ => numericType c.ctype && c.range.isSome

/-- Modelled from the spec: the Query Analyzer's classify operation
(spec section 4.2). Accepts only aggregation shapes whose GROUP BY columns
are declared and whose aggregate list is nonempty and admissible; every
other shape fails with UnsupportedQuery. -/
def classify (q : QueryShape) (schema : List ColumnDescriptor) :
    Except QueryError QueryDescriptor :=
  match q with
  | .subquery _ => .error .UnsupportedQuery
  | .joinNoRelationship _ _ => .error .UnsupportedQuery
  | .plainSelect _ _ => .error .UnsupportedQuery
  | .aggregate table gby aggs =>
    if !aggs.isEmpty
        && gby.all (fun g => (schema.find? (fun c => c.name == g)).isSome)
        && aggs.all (fun a => admissibleAgg schema a.2.1 a.2.2) then
      .ok ⟨table, gby, aggs⟩
    else
      .error .UnsupportedQuery

/-- Typed values of a result row, as the Exact Reader contract returns
typed tuples (spec section 6). -/
inductive Value where
  | int (i : Int)
  | rat (q : Rat)
  | bool (b : Bool)
  | str (s : String)
  deriving DecidableEq

/-- Ordered result set: output column names plus rows of values
(spec section 3). -/
structure ResultSet where
  colNames : List String
  rows : List (List Value)
  deriving DecidableEq

/-- Modelled from the spec and the notebook transcript: schema-directed
conversion of a grouping-key value; a boolean column's raw 0/1 integer keys
come back as False/True from the private reader (notebook cell-4 versus
cell-10). -/
def convertValue (c : ColumnDescriptor) (v : Value) : Value :=
  match c.ctype, v with
  | .boolean, .int i => .bool (i != 0)
  | _, _ => v

/-- Schema-directed conversion of a whole grouping-key prefix, one GROUP BY
column at a time. -/
def convertKeys (schema : List ColumnDescriptor) (gby : List String)
    (keys : List Value) : List Value :=
  List.zipWith
    (fun g v =>
      match schema.find? (fun c => c.name == g) with
      | some c => convertValue c v
      | none => v)
    gby keys

/-- Modelled from the spec: the sensitivity used for one aggregate output
of a classified query; COUNT (over star, the identifier, or any column) has
sensitivity 1, the others look up their source column (spec section 4.3). -/
def aggSensitivity (schema : List ColumnDescriptor) (fn : AggFn)
    (arg : AggArg) : Except QueryError Rat :=
  match fn, arg with
  | .count, _ => .ok 1
  | _, .star => .error .UnsupportedQuery
  | _, .nestedAgg _ _ => .error .UnsupportedQuery
  | fn, .col nm =>
    match column schema nm with
    | .error e => .error e
    | .ok c => sensitivity fn c

/-- Sensitivities of each aggregate output of a query, in SELECT order. -/
def aggScales (schema : List ColumnDescriptor)
    (aggs : List (String × AggFn × AggArg)) :
    Except QueryError (List (AggFn × Rat)) :=
  match aggs with
  | [] => .ok []
  | (_, fn, arg) :: rest =>
    match aggSensitivity schema fn arg with
    | .error e => .error e
    | .ok s =>
      match aggScales schema rest with
      | .error e => .error e
      | .ok tail => .ok ((fn, s) :: tail)

/-- Modelled from the spec: the equal-split epsilon policy of spec
section 4.3: the query's epsilon is divided evenly among its k aggregate
output columns. -/
def epsilonShare (eps : Rat) (k : Nat) : Rat := eps / (k : Rat)

/-- Modelled from the spec: Laplace noise scaled by sensitivity over the
allotted epsilon (spec section 4.3); the standard Laplace draw itself is an
input, so sampling is the draw multiplied by sensitivity / epsilon. -/
def sampleNoise (sens eps draw : Rat) : Rat := draw * (sens / eps)

/-- Modelled from the spec and the notebook transcript: one noised
aggregate cell; COUNT results are rounded to an integer (every count in
the notebook's recorded outputs is an integer), other aggregates stay
numeric. -/
def noiseCell (fn : AggFn) (sens epsShare v draw : Rat) : Value :=
  match fn with
  | .count => .int (round (v + sampleNoise sens epsShare draw))
  | _ => .rat (v + sampleNoise sens epsShare draw)

/-- Noise one row's aggregate values, consuming one standard Laplace draw
per aggregate cell from the stream position onward. -/
def noiseRow (scales : List (AggFn × Rat)) (epsShare : Rat)
    (vals : List Rat) (noise : Nat → Rat) (pos : Nat) :
    List Value × Nat :=
  match scales, vals with
  | [], _ => ([], pos)
  | _ :: _, [] => ([], pos)
  | (fn, sens) :: restS, v :: restV =>
    let rest := noiseRow restS epsShare restV noise (pos + 1)
    (noiseCell fn sens epsShare v (noise pos) :: rest.1, rest.2)

/-- Noise every row of the exact result, converting grouping keys by the
schema and threading the noise-stream position. -/
def noiseRows (schema : List ColumnDescriptor) (gby : List String)
    (scales : List (AggFn × Rat)) (epsShare : Rat)
    (rows : List (List Value × List Rat)) (noise : Nat → Rat)
    (pos : Nat) : List (List Value) × Nat :=
  match rows with
  | [] => ([], pos)
  | (keys, vals) :: rest =>
    let hd := noiseRow scales epsShare vals noise pos
    let tl := noiseRows schema gby scales epsShare rest noise hd.2
    ((convertKeys schema gby keys ++ hd.1) :: tl.1, tl.2)

/-- Modelled from the spec: the Private Reader's execute operation (spec
section 4.4; PrivateReader's code is not in the repository). Epsilon is
checked before anything else runs (section 7, InvalidBudget), then the
query is classified, the exact rows are obtained from the Exact Reader (a
row is a grouping-key prefix plus numeric aggregate values), sensitivities
and the equal epsilon split are computed, and noise is added cell by cell
from the fresh stream position; the advanced position is returned with the
result. -/
def execute
    (reader : QueryShape → Except QueryError (List (List Value × List Rat)))
    (schema : List ColumnDescriptor) (q : QueryShape) (eps : Rat)
    (noise : Nat → Rat) (pos : Nat) :
    Except QueryError (ResultSet × Nat) :=
  if eps ≤ 0 then .error .InvalidBudget
  else
    match classify q schema with
    | .error e => .error e
    | .ok desc =>
      match reader q with
      | .error e => .error e
      | .ok rows =>
        match aggScales schema desc.aggs with
        | .error e => .error e
        | .ok scales =>
          let out :=
            noiseRows schema desc.groupBy scales
              (epsilonShare eps desc.aggs.length) rows noise pos
          .ok (⟨desc.groupBy ++ desc.aggs.map (fun a => a.1), out.1⟩, out.2)

/-- The demo query of notebook cell-4: SELECT married, COUNT(pid) AS n
FROM PUMS.PUMS GROUP BY married, as a parsed shape. -/
def demoQuery : QueryShape :=
  .aggregate "PUMS.PUMS" ["married"] [("n", .count, .col "pid")]

/-- Recorded output of notebook cell-10: the exact reader's result for the
demo query, with raw integer keys 0/1 and true counts 451 and 549. -/
def cell10Exact : ResultSet :=
  ⟨["married", "n"], [[.int 0, .int 451], [.int 1, .int 549]]⟩

/-- The exact reader's rows for the demo query in the pipeline's row form:
grouping-key prefix plus numeric aggregate values (from cell-10). -/
def demoExactRows : List (List Value × List Rat) :=
  [([.int 0], [451]), ([.int 1], [549])]

/-- The demo Exact Reader: answers the demo query with the recorded
cell-10 rows and fails with a source-specific execution error on anything
else (spec section 6). -/
def demoReader (q : QueryShape) :
    Except QueryError (List (List Value × List Rat)) :=
  if q = demoQuery then .ok demoExactRows else .error .ExecutionError

/-- Recorded output of notebook cell-4: the private result at epsilon 1.0,
keys False/True and noised counts 443 and 555. -/
def cell4Result : ResultSet :=
  ⟨["married", "n"], [[.bool false, .int 443], [.bool true, .int 555]]⟩

/-- Recorded output of notebook cell-6: the second private call on the
same inputs at epsilon 1.0, noised counts 449 and 553. -/
def cell6Result : ResultSet :=
  ⟨["married", "n"], [[.bool false, .int 449], [.bool true, .int 553]]⟩

/-- Recorded first output of notebook cell-8: the private result at
epsilon 4.0, noised counts 451 and 550. -/
def cell8LargeEps : ResultSet :=
  ⟨["married", "n"], [[.bool false, .int 451], [.bool true, .int 550]]⟩

/-- Recorded second output of notebook cell-8: the private result at
epsilon 0.1, a single row with key False and noised count 485; the entire
married = True group (true count 549) is absent. -/
def cell8SmallEps : ResultSet :=
  ⟨["married", "n"], [[.bool false, .int 485]]⟩

/-- The four recorded private executions of the notebook, each with the
epsilon it was run at. -/
def recordedPrivateRuns : List (Rat × ResultSet) :=
  [(1, cell4Result), (1, cell6Result), (4, cell8LargeEps),
    (1 / 10, cell8SmallEps)]

/-- Whether a value is an integer value. -/
def isIntValue : Value → Bool
  | .int _ => true
  | _ => false

/-- A deterministic stand-in noise stream used to exhibit two successive
calls: the first call's draws (positions 0 and 1) are 0, later draws are 1. -/
def demoNoise : Nat → Rat := fun i => if i < 2 then 0 else 1

/-- The unsupported query shapes that claim the analyzer must reject:
a subquery, a join without declared relationship metadata, a nested
aggregate, and SUM/AVG/MIN/MAX over an undeclared or non-numeric column. -/
inductive UnsupportedCase (schema : List ColumnDescriptor) : QueryShape → Prop where
  | subq (q : QueryShape) : UnsupportedCase schema (.subquery q)
  | joinNoRel (t1 t2 : String) : UnsupportedCase schema (.joinNoRelationship t1 t2)
  | nestedAggregate (t : String) (gby : List String)
      (aggs : List (String × AggFn × AggArg)) (nm : String) (fnO fn : AggFn)
      (arg : AggArg) :
      (nm, fnO, AggArg.nestedAgg fn arg) ∈ aggs →
      UnsupportedCase schema (.aggregate t gby aggs)
  | sumLikeUndeclared (t : String) (gby : List String)
      (aggs : List (String × AggFn × AggArg)) (nm : String) (fn : AggFn)
      (cname : String) :
      sumLike fn = true →
      schema.find? (fun c => c.name == cname) = none →
      (nm, fn, AggArg.col cname) ∈ aggs →
      UnsupportedCase schema (.aggregate t gby aggs)
  | sumLikeNonNumeric (t : String) (gby : List String)
      (aggs : List (String × AggFn × AggArg)) (nm : String) (fn : AggFn)
      (cname : String) (c : ColumnDescriptor) :
      sumLike fn = true →
      schema.find? (fun cd => cd.name == cname) = some c →
      numericType c.ctype = false →
      (nm, fn, AggArg.col cname) ∈ aggs →
      UnsupportedCase schema (.aggregate t gby aggs)

/-- C2: for every column descriptor, sensitivity(COUNT, column) equals 1,
independent of the column's declared range; the same holds at the pipeline
level for COUNT over any aggregate argument, including COUNT(identifier)
and COUNT(*). -/
theorem count_sensitivity_always_one :
    (∀ c : ColumnDescriptor, sensitivity .count c = .ok 1)
    ∧ (∀ (schema : List ColumnDescriptor) (arg : AggArg),
        aggSensitivity schema .count arg = .ok 1) := by
  constructor
  · intro c
    rfl
  · intro schema arg
    cases arg <;> rfl

/-- C3: for every column with a finite declared range, sensitivity(SUM)
equals max(abs lo, abs hi), and sensitivity(SUM) fails with MissingRange
exactly when no finite range is declared. -/
theorem sum_sensitivity_range :
    ∀ c : ColumnDescriptor,
      (∀ lo hi : Rat, c.range = some (lo, hi) →
        sensitivity .sum c = .ok (Max.max |lo| |hi|))
      ∧ (sensitivity .sum c = .error .MissingRange ↔ c.range = none) := by
  intro c
  constructor
  · intro lo hi h
    simp [sensitivity, h]
  · cases h : c.range with
    | none => simp [sensitivity, h]
    | some p =>
      obtain ⟨lo, hi⟩ := p
      simp [sensitivity, h]

/-- Witness for C3: the income column has declared range (0, 500000) and
SUM sensitivity 500000, while the range-less educ column fails with
MissingRange. -/
theorem sum_sensitivity_range_witness :
    incomeCol.range = some (0, 500000)
    ∧ sensitivity .sum incomeCol = .ok (Max.max |(0 : Rat)| |(500000 : Rat)|)
    ∧ educCol.range = none
    ∧ sensitivity .sum educCol = .error .MissingRange := by
  refine ⟨rfl, ?_, rfl, ?_⟩
  · exact (sum_sensitivity_range incomeCol).1 0 500000 rfl
  · exact (sum_sensitivity_range educCol).2.mpr rfl

/-- C6: the calibrator allots every one of the k aggregate output columns
the equal share epsilon / k, and the k shares spent in one call sum to
exactly the requested epsilon, hence do not exceed it. -/
theorem epsilon_equal_split :
    ∀ (eps : Rat) (k : Nat), 0 < k →
      (List.replicate k (epsilonShare eps k)).sum = eps
      ∧ (List.replicate k (epsilonShare eps k)).sum ≤ eps := by
  intro eps k hk
  have hk0 : (k : Rat) ≠ 0 := Nat.cast_ne_zero.mpr (Nat.pos_iff_ne_zero.mp hk)
  have hsum : (List.replicate k (epsilonShare eps k)).sum = eps := by
    rw [List.sum_replicate, nsmul_eq_mul, epsilonShare]
    field_simp
  exact ⟨hsum, le_of_eq hsum⟩

/-- Witness for C6: the demo query has one aggregate output column, and a
two-aggregate query splits epsilon 1 into two halves summing to 1. -/
theorem epsilon_equal_split_witness :
    (0 < 2)
    ∧ (List.replicate 2 (epsilonShare 1 2)).sum = 1
    ∧ (List.replicate 2 (epsilonShare 1 2)).sum ≤ 1 :=
  ⟨by norm_num, (epsilon_equal_split 1 2 (by norm_num)).1,
    (epsilon_equal_split 1 2 (by norm_num)).2⟩

/-- C7: for every query shape and every epsilon at most 0, execute fails
with InvalidBudget before anything runs: the result is the same for every
Exact Reader and every noise stream, so the reader is never consulted and
no noise is sampled. -/
theorem invalid_budget_rejected :
    ∀ (reader : QueryShape → Except QueryError (List (List Value × List Rat)))
      (schema : List ColumnDescriptor) (q : QueryShape) (eps : Rat)
      (noise : Nat → Rat) (pos : Nat), eps ≤ 0 →
      execute reader schema q eps noise pos = .error .InvalidBudget := by
  intro reader schema q eps noise pos h
  simp [execute, h]

/-- Witness for C7: epsilon 0 on the demo query is rejected with
InvalidBudget even though the demo reader could have answered it. -/
theorem invalid_budget_rejected_witness :
    ((0 : Rat) ≤ 0)
    ∧ execute demoReader pumsSchema demoQuery 0 (fun _ => 0) 0 =
        .error .InvalidBudget :=
  ⟨le_refl 0,
    invalid_budget_rejected demoReader pumsSchema demoQuery 0 (fun _ => 0) 0
      (le_refl 0)⟩

/-- Membership of an element the predicate rejects forces List.all to be
false. -/
theorem all_eq_false_of_mem {α : Type} {l : List α} {p : α → Bool} {a : α}
    (ha : a ∈ l) (hpa : p a = false) : l.all p = false := by
  rcases h : l.all p with _ | _
  · rfl
  · exfalso
    rw [List.all_eq_true] at h
    have hp := h a ha
    rw [hpa] at hp
    exact Bool.false_ne_true hp

/-- C4: every query shape of an unsupported kind, a subquery, a join
without declared relationship metadata, a nested aggregate, or
SUM/AVG/MIN/MAX over an undeclared or non-numeric column, is rejected by
classify with UnsupportedQuery, and hence execute also fails with
UnsupportedQuery for every reader and positive epsilon, never silently
executing the query. -/
theorem unsupported_query_rejected :
    ∀ (schema : List ColumnDescriptor) (q : QueryShape),
      UnsupportedCase schema q →
      classify q schema = .error .UnsupportedQuery
      ∧ ∀ (reader : QueryShape → Except QueryError (List (List Value × List Rat)))
          (eps : Rat) (noise : Nat → Rat) (pos : Nat), 0 < eps →
          execute reader schema q eps noise pos = .error .UnsupportedQuery := by
  intro schema q hcase
  have hclassify : classify q schema = .error .UnsupportedQuery := by
    cases hcase with
    | subq q => rfl
    | joinNoRel t1 t2 => rfl
    | nestedAggregate t gby aggs nm fnO fn arg hmem =>
      have hall : aggs.all (fun a => admissibleAgg schema a.2.1 a.2.2) = false :=
        all_eq_false_of_mem hmem rfl
      simp [classify, hall]
    | sumLikeUndeclared t gby aggs nm fn cname hfn hfind hmem =>
      have hadm : admissibleAgg schema fn (.col cname) = false := by
        simp [admissibleAgg, hfind]
      have hall : aggs.all (fun a => admissibleAgg schema a.2.1 a.2.2) = false :=
        all_eq_false_of_mem hmem hadm
      simp [classify, hall]
    | sumLikeNonNumeric t gby aggs nm fn cname c hfn hfind hnum hmem =>
      have hadm : admissibleAgg schema fn (.col cname) = false := by
        cases fn <;> simp_all [admissibleAgg, sumLike]
      have hall : aggs.all (fun a => admissibleAgg schema a.2.1 a.2.2) = false :=
        all_eq_false_of_mem hmem hadm
      simp [classify, hall]
  refine ⟨hclassify, ?_⟩
  intro reader eps noise pos heps
  simp [execute, hclassify, not_le.mpr heps]

/-- Witness for C4: a subquery wrapped around the demo query is rejected
by classify and by execute at epsilon 1. -/
theorem unsupported_query_rejected_witness :
    UnsupportedCase pumsSchema (.subquery demoQuery)
    ∧ classify (.subquery demoQuery) pumsSchema = .error .UnsupportedQuery
    ∧ ((0 : Rat) < 1)
    ∧ execute demoReader pumsSchema (.subquery demoQuery) 1 (fun _ => 0) 0 =
        .error .UnsupportedQuery := by
  have h := unsupported_query_rejected pumsSchema (.subquery demoQuery)
    (UnsupportedCase.subq demoQuery)
  exact ⟨UnsupportedCase.subq demoQuery, h.1, by norm_num,
    h.2 demoReader 1 (fun _ => 0) 0 (by norm_num)⟩

/-- Noising one row never moves the stream position backwards. -/
theorem noiseRow_pos_le (scales : List (AggFn × Rat)) (epsShare : Rat)
    (vals : List Rat) (noise : Nat → Rat) (pos : Nat) :
    pos ≤ (noiseRow scales epsShare vals noise pos).2 := by
  induction scales generalizing vals pos with
  | nil => simp [noiseRow]
  | cons s rest ih =>
    cases vals with
    | nil => simp [noiseRow]
    | cons v vs =>
      obtain ⟨fn, sens⟩ := s
      simp only [noiseRow]
      exact le_trans (Nat.le_succ pos) (ih vs (pos + 1))

/-- Noising one row reads the stream only at positions at or beyond the
current one. -/
theorem noiseRow_congr (scales : List (AggFn × Rat)) (epsShare : Rat)
    (vals : List Rat) (n1 n2 : Nat → Rat) (pos : Nat)
    (h : ∀ i, pos ≤ i → n1 i = n2 i) :
    noiseRow scales epsShare vals n1 pos = noiseRow scales epsShare vals n2 pos := by
  induction scales generalizing vals pos with
  | nil => rfl
  | cons s rest ih =>
    cases vals with
    | nil => rfl
    | cons v vs =>
      obtain ⟨fn, sens⟩ := s
      simp only [noiseRow]
      rw [h pos (le_refl pos),
        ih vs (pos + 1) (fun i hi => h i (Nat.le_of_succ_le hi))]

/-- Noising a row set never moves the stream position backwards. -/
theorem noiseRows_pos_le (schema : List ColumnDescriptor) (gby : List String)
    (scales : List (AggFn × Rat)) (epsShare : Rat)
    (rows : List (List Value × List Rat)) (noise : Nat → Rat) (pos : Nat) :
    pos ≤ (noiseRows schema gby scales epsShare rows noise pos).2 := by
  induction rows generalizing pos with
  | nil => simp [noiseRows]
  | cons r rest ih =>
    obtain ⟨keys, vals⟩ := r
    simp only [noiseRows]
    exact le_trans (noiseRow_pos_le scales epsShare vals noise pos)
      (ih ((noiseRow scales epsShare vals noise pos).2))

/-- Noising a row set reads the stream only at positions at or beyond the
current one. -/
theorem noiseRows_congr (schema : List ColumnDescriptor) (gby : List String)
    (scales : List (AggFn × Rat)) (epsShare : Rat)
    (rows : List (List Value × List Rat)) (n1 n2 : Nat → Rat) (pos : Nat)
    (h : ∀ i, pos ≤ i → n1 i = n2 i) :
    noiseRows schema gby scales epsShare rows n1 pos =
      noiseRows schema gby scales epsShare rows n2 pos := by
  induction rows generalizing pos with
  | nil => rfl
  | cons r rest ih =>
    obtain ⟨keys, vals⟩ := r
    simp only [noiseRows]
    rw [noiseRow_congr scales epsShare vals n1 n2 pos h]
    rw [ih ((noiseRow scales epsShare vals n2 pos).2)
      (fun i hi => h i (le_trans (noiseRow_pos_le scales epsShare vals n2 pos) hi))]

/-- One call to execute depends only on the noise stream from its starting
position onward: streams that agree on every position at or beyond the
start give identical results. -/
theorem execute_noise_congr
    (reader : QueryShape → Except QueryError (List (List Value × List Rat)))
    (schema : List ColumnDescriptor) (q : QueryShape) (eps : Rat)
    (n1 n2 : Nat → Rat) (pos : Nat) (h : ∀ i, pos ≤ i → n1 i = n2 i) :
    execute reader schema q eps n1 pos = execute reader schema q eps n2 pos := by
  by_cases he : eps ≤ 0
  · simp [execute, he]
  · simp only [execute, if_neg he]
    rcases hc : classify q schema with e | desc
    · simp [hc]
    · simp only [hc]
      rcases hr : reader q with e | rows
      · simp [hr]
      · simp only [hr]
        rcases hs : aggScales schema desc.aggs with e | scales
        · simp [hs]
        · simp only [hs]
          rw [noiseRows_congr schema desc.groupBy scales
            (epsilonShare eps desc.aggs.length) rows n1 n2 pos h]

/-- A successful execute returns a stream position at or beyond the one it
was given, so a later call starts on fresh draws. -/
theorem execute_pos_le
    (reader : QueryShape → Except QueryError (List (List Value × List Rat)))
    (schema : List ColumnDescriptor) (q : QueryShape) (eps : Rat)
    (noise : Nat → Rat) (pos : Nat) (res : ResultSet) (pos' : Nat)
    (hexec : execute reader schema q eps noise pos = .ok (res, pos')) :
    pos ≤ pos' := by
  by_cases he : eps ≤ 0
  · simp [execute, he] at hexec
  · simp only [execute, if_neg he] at hexec
    rcases hc : classify q schema with e | desc
    · simp [hc] at hexec
    · simp only [hc] at hexec
      rcases hr : reader q with e | rows
      · simp [hr] at hexec
      · simp only [hr] at hexec
        rcases hs : aggScales schema desc.aggs with e | scales
        · simp [hs] at hexec
        · simp only [hs, Except.ok.injEq, Prod.mk.injEq] at hexec
          rw [← hexec.2]
          exact noiseRows_pos_le schema desc.groupBy scales
            (epsilonShare eps desc.aggs.length) rows noise pos

/-- C5: two successive calls to execute draw fresh noise and memoize
nothing: a call depends only on the noise stream from its starting
position onward, a successful call hands the advanced position to the next
call, and on the demo inputs two successive calls whose fresh draws differ
return different numeric aggregate values under identical grouping keys,
exactly as the notebook transcript records (cell-4 then cell-6). -/
theorem fresh_noise_per_call :
    (∀ (reader : QueryShape → Except QueryError (List (List Value × List Rat)))
        (schema : List ColumnDescriptor) (q : QueryShape) (eps : Rat)
        (n1 n2 : Nat → Rat) (pos : Nat),
        (∀ i, pos ≤ i → n1 i = n2 i) →
        execute reader schema q eps n1 pos = execute reader schema q eps n2 pos)
    ∧ (∀ (reader : QueryShape → Except QueryError (List (List Value × List Rat)))
        (schema : List ColumnDescriptor) (q : QueryShape) (eps : Rat)
        (noise : Nat → Rat) (pos : Nat) (res : ResultSet) (pos' : Nat),
        execute reader schema q eps noise pos = .ok (res, pos') → pos ≤ pos')
    ∧ (∃ rs1 rs2 : ResultSet, ∃ p2 : Nat,
        execute demoReader pumsSchema demoQuery 1 demoNoise 0 = .ok (rs1, 2)
        ∧ execute demoReader pumsSchema demoQuery 1 demoNoise 2 = .ok (rs2, p2)
        ∧ rs1.colNames = rs2.colNames
        ∧ rs1.rows.map (fun r => r.take 1) = rs2.rows.map (fun r => r.take 1)
        ∧ rs1.rows ≠ rs2.rows)
    ∧ cell4Result.colNames = cell6Result.colNames
    ∧ cell4Result.rows.map (fun r => r.take 1) =
        cell6Result.rows.map (fun r => r.take 1)
    ∧ cell4Result.rows ≠ cell6Result.rows := by
  refine ⟨execute_noise_congr, execute_pos_le, ?_, rfl, rfl, ?_⟩
  · refine ⟨⟨["married", "n"], [[.bool false, .int 451], [.bool true, .int 549]]⟩,
      ⟨["married", "n"], [[.bool false, .int 452], [.bool true, .int 550]]⟩, 4,
      ?_, ?_, rfl, rfl, by decide⟩
    · simp [execute, classify, demoQuery, demoReader, demoExactRows, pumsSchema,
        admissibleAgg, aggScales, aggSensitivity, column, sensitivity,
        epsilonShare, noiseRows, noiseRow, noiseCell, sampleNoise, convertKeys,
        convertValue, demoNoise, ageCol, sexCol, educCol, raceCol, incomeCol,
        marriedCol, pidCol]
    · simp [execute, classify, demoQuery, demoReader, demoExactRows, pumsSchema,
        admissibleAgg, aggScales, aggSensitivity, column, sensitivity,
        epsilonShare, noiseRows, noiseRow, noiseCell, sampleNoise, convertKeys,
        convertValue, demoNoise, ageCol, sexCol, educCol, raceCol, incomeCol,
        marriedCol, pidCol]
  · decide

/-- Witness for C5: streams that agree from position 2 onward give the
same second-call result even when their first-call draws differ, and the
first call on the demo inputs advances the stream from 0 to 2. -/
theorem fresh_noise_per_call_witness :
    execute demoReader pumsSchema demoQuery 1
        (fun i => if i < 2 then 99 else demoNoise i) 2
      = execute demoReader pumsSchema demoQuery 1 demoNoise 2
    ∧ (0 : Nat) ≤ 2 := by
  constructor
  · exact fresh_noise_per_call.1 demoReader pumsSchema demoQuery 1
      (fun i => if i < 2 then 99 else demoNoise i) demoNoise 2
      (fun i hi => by simp [Nat.not_lt.mpr hi])
  · have hrun : execute demoReader pumsSchema demoQuery 1 demoNoise 0 =
        .ok (⟨["married", "n"],
          [[.bool false, .int 451], [.bool true, .int 549]]⟩, 2) := by
      simp [execute, classify, demoQuery, demoReader, demoExactRows, pumsSchema,
        admissibleAgg, aggScales, aggSensitivity, column, sensitivity,
        epsilonShare, noiseRows, noiseRow, noiseCell, sampleNoise, convertKeys,
        convertValue, demoNoise, ageCol, sexCol, educCol, raceCol, incomeCol,
        marriedCol, pidCol]
    exact fresh_noise_per_call.2.1 demoReader pumsSchema demoQuery 1 demoNoise 0
      _ 2 hrun

/-- The aggregate functions recorded in the computed scales are exactly
the aggregate functions of the query descriptor, in order. -/
theorem aggScales_map_fst (schema : List ColumnDescriptor) :
    ∀ (aggs : List (String × AggFn × AggArg)) (scales : List (AggFn × Rat)),
      aggScales schema aggs = .ok scales →
      scales.map Prod.fst = aggs.map (fun a => a.2.1) := by
  intro aggs
  induction aggs with
  | nil =>
    intro scales h
    simp only [aggScales, Except.ok.injEq] at h
    subst h
    rfl
  | cons a rest ih =>
    intro scales h
    obtain ⟨nm, fn, arg⟩ := a
    simp only [aggScales] at h
    rcases hs : aggSensitivity schema fn arg with e | s
    · simp [hs] at h
    · simp only [hs] at h
      rcases ht : aggScales schema rest with e | tail
      · simp [ht] at h
      · simp only [ht, Except.ok.injEq] at h
        subst h
        simp [ih tail ht]

/-- The cell a COUNT scale produces in a noised row is an integer value. -/
theorem noiseRow_count_int :
    ∀ (scales : List (AggFn × Rat)) (epsShare : Rat) (vals : List Rat)
      (noise : Nat → Rat) (pos j : Nat) (sens : Rat),
      scales[j]? = some (.count, sens) → scales.length ≤ vals.length →
      ((noiseRow scales epsShare vals noise pos).1[j]?).any isIntValue = true := by
  intro scales
  induction scales with
  | nil =>
    intro epsShare vals noise pos j sens hj
    simp at hj
  | cons s rest ih =>
    intro epsShare vals noise pos j sens hj hlen
    obtain ⟨fn, sv⟩ := s
    cases vals with
    | nil => simp at hlen
    | cons v vs =>
      cases j with
      | zero =>
        simp only [List.getElem?_cons_zero, Option.some.injEq, Prod.mk.injEq] at hj
        obtain ⟨hfn, hsv⟩ := hj
        subst hfn
        simp [noiseRow, noiseCell, isIntValue]
      | succ j =>
        simp only [List.getElem?_cons_succ] at hj
        simp only [noiseRow, List.getElem?_cons_succ]
        exact ih epsShare vs noise (pos + 1) j sens hj
          (by simpa using Nat.le_of_succ_le_succ hlen)

/-- Every row of the noised row set comes from one exact row: its
schema-converted keys followed by that row's noised aggregate cells. -/
theorem noiseRows_mem (schema : List ColumnDescriptor) (gby : List String)
    (scales : List (AggFn × Rat)) (epsShare : Rat) :
    ∀ (rows : List (List Value × List Rat)) (noise : Nat → Rat) (pos : Nat)
      (row : List Value),
      row ∈ (noiseRows schema gby scales epsShare rows noise pos).1 →
      ∃ r ∈ rows, ∃ p0 : Nat,
        row = convertKeys schema gby r.1 ++ (noiseRow scales epsShare r.2 noise p0).1 := by
  intro rows
  induction rows with
  | nil =>
    intro noise pos row hrow
    simp [noiseRows] at hrow
  | cons r rest ih =>
    intro noise pos row hrow
    obtain ⟨keys, vals⟩ := r
    simp only [noiseRows, List.mem_cons] at hrow
    rcases hrow with hhd | htl
    · exact ⟨(keys, vals), List.mem_cons_self _ _, pos, hhd⟩
    · obtain ⟨r, hr, p0, heq⟩ :=
        ih noise ((noiseRow scales epsShare vals noise pos).2) row htl
      exact ⟨r, List.mem_cons_of_mem _ hr, p0, heq⟩

/-- C10: for every successful execute whose reader rows are aligned with
the classified query (full grouping-key prefix, enough aggregate values),
every output cell belonging to a COUNT aggregate is an integer value: the
Laplace-noised count is rounded to an integer rather than returned as an
arbitrary rational. -/
theorem count_outputs_integer :
    ∀ (reader : QueryShape → Except QueryError (List (List Value × List Rat)))
      (schema : List ColumnDescriptor) (q : QueryShape) (eps : Rat)
      (noise : Nat → Rat) (pos : Nat) (desc : QueryDescriptor)
      (rows : List (List Value × List Rat)) (res : ResultSet) (pos' : Nat),
      classify q schema = .ok desc →
      reader q = .ok rows →
      (∀ r ∈ rows, r.1.length = desc.groupBy.length
        ∧ desc.aggs.length ≤ r.2.length) →
      execute reader schema q eps noise pos = .ok (res, pos') →
      ∀ row ∈ res.rows, ∀ (j : Nat) (nm : String) (arg : AggArg),
        desc.aggs[j]? = some (nm, .count, arg) →
        (row[desc.groupBy.length + j]?).any isIntValue = true := by
  intro reader schema q eps noise pos desc rows res pos' hc hr halign hexec
  intro row hrow j nm arg hagg
  by_cases he : eps ≤ 0
  · simp [execute, he] at hexec
  · simp only [execute, if_neg he, hc, hr] at hexec
    rcases hs : aggScales schema desc.aggs with e | scales
    · simp [hs] at hexec
    · simp only [hs, Except.ok.injEq, Prod.mk.injEq] at hexec
      obtain ⟨h1, h2⟩ := hexec
      subst h1
      simp only at hrow
      obtain ⟨r, hrmem, p0, heq⟩ := noiseRows_mem schema desc.groupBy scales
        (epsilonShare eps desc.aggs.length) rows noise pos row hrow
      subst heq
      have hklen : (convertKeys schema desc.groupBy r.1).length =
          desc.groupBy.length := by
        rw [convertKeys, List.length_zipWith, (halign r hrmem).1, min_self]
      rw [List.getElem?_append_right (by rw [hklen]; omega)]
      have hidx : desc.groupBy.length + j -
          (convertKeys schema desc.groupBy r.1).length = j := by
        rw [hklen]
        omega
      rw [hidx]
      have hmap := aggScales_map_fst schema desc.aggs scales hs
      have hsl : scales.length = desc.aggs.length := by
        have hll := congrArg List.length hmap
        simpa using hll
      have hscale : ∃ s, scales[j]? = some (.count, s) := by
        have h1 : (scales.map Prod.fst)[j]? =
            (desc.aggs.map (fun a => a.2.1))[j]? := by rw [hmap]
        rw [List.getElem?_map, List.getElem?_map, hagg] at h1
        rcases hq : scales[j]? with _ | p
        · rw [hq] at h1
          simp at h1
        · rw [hq] at h1
          obtain ⟨p1, p2⟩ := p
          simp at h1
          subst h1
          exact ⟨p2, rfl⟩
      obtain ⟨s, hsj⟩ := hscale
      exact noiseRow_count_int scales (epsilonShare eps desc.aggs.length) r.2
        noise p0 j s hsj (by rw [hsl]; exact (halign r hrmem).2)

/-- Witness for C10: on the demo query the single aggregate column is a
COUNT, and the noised cell of the first output row is the integer 451. -/
theorem count_outputs_integer_witness :
    classify demoQuery pumsSchema =
      .ok ⟨"PUMS.PUMS", ["married"], [("n", .count, .col "pid")]⟩
    ∧ demoReader demoQuery = .ok demoExactRows
    ∧ execute demoReader pumsSchema demoQuery 1 (fun _ => 0) 0 =
        .ok (⟨["married", "n"],
          [[.bool false, .int 451], [.bool true, .int 549]]⟩, 2)
    ∧ (([Value.bool false, Value.int 451][(1 : Nat)]?).any isIntValue) = true := by
  have hc : classify demoQuery pumsSchema =
      .ok ⟨"PUMS.PUMS", ["married"], [("n", .count, .col "pid")]⟩ := by
    simp [classify, demoQuery, pumsSchema, admissibleAgg,
      ageCol, sexCol, educCol, raceCol, incomeCol, marriedCol, pidCol]
  have hr : demoReader demoQuery = .ok demoExactRows := by
    simp [demoReader]
  have halign : ∀ r ∈ demoExactRows, r.1.length = 1 ∧ 1 ≤ r.2.length := by
    decide
  have hexec : execute demoReader pumsSchema demoQuery 1 (fun _ => 0) 0 =
      .ok (⟨["married", "n"],
        [[.bool false, .int 451], [.bool true, .int 549]]⟩, 2) := by
    simp [execute, classify, demoQuery, demoReader, demoExactRows, pumsSchema,
      admissibleAgg, aggScales, aggSensitivity, column, sensitivity,
      epsilonShare, noiseRows, noiseRow, noiseCell, sampleNoise, convertKeys,
      convertValue, ageCol, sexCol, educCol, raceCol, incomeCol, marriedCol,
      pidCol]
  have hint := count_outputs_integer demoReader pumsSchema demoQuery 1
    (fun _ => 0) 0 ⟨"PUMS.PUMS", ["married"], [("n", .count, .col "pid")]⟩
    demoExactRows
    ⟨["married", "n"], [[.bool false, .int 451], [.bool true, .int 549]]⟩ 2
    hc hr halign hexec [Value.bool false, Value.int 451] (by decide)
    0 "n" (.col "pid") rfl
  exact ⟨hc, hr, hexec, hint⟩

/-- Evaluation of the modelled pipeline on the demo query at epsilon 1
with an arbitrary noise stream: keys come back as booleans, counts as
rounded noised integers, and the stream advances by one draw per cell. -/
theorem demo_execute_eval (noise : Nat → Rat) (pos : Nat) :
    execute demoReader pumsSchema demoQuery 1 noise pos =
      .ok (⟨["married", "n"],
        [[.bool false, .int (round ((451 : Rat) + noise pos))],
         [.bool true, .int (round ((549 : Rat) + noise (pos + 1)))]]⟩,
        pos + 2) := by
  simp [execute, classify, demoQuery, demoReader, demoExactRows, pumsSchema,
    admissibleAgg, aggScales, aggSensitivity, column, sensitivity,
    epsilonShare, noiseRows, noiseRow, noiseCell, sampleNoise, convertKeys,
    convertValue, ageCol, sexCol, educCol, raceCol, incomeCol, marriedCol,
    pidCol]

/-- C1 counterexample: the demo query is supported and epsilon 0.1 is
positive, yet the recorded private result at epsilon 0.1 (notebook cell-8)
does not have the grouping-key values of the exact result (notebook
cell-10): a whole group row is missing, and even at epsilon 1 the key
values 0/1 come back as False/True rather than verbatim. -/
theorem private_result_structure_cex :
    ((0 : Rat) < 1 / 10)
    ∧ classify demoQuery pumsSchema =
        .ok ⟨"PUMS.PUMS", ["married"], [("n", .count, .col "pid")]⟩
    ∧ cell8SmallEps.rows.length ≠ cell10Exact.rows.length
    ∧ cell8SmallEps.rows.map (fun r => r.take 1) ≠
        cell10Exact.rows.map (fun r => r.take 1)
    ∧ cell4Result.rows.map (fun r => r.take 1) ≠
        cell10Exact.rows.map (fun r => r.take 1) := by
  refine ⟨by norm_num, ?_, by decide, by decide, by decide⟩
  simp [classify, demoQuery, pumsSchema, admissibleAgg,
    ageCol, sexCol, educCol, raceCol, incomeCol, marriedCol, pidCol]

/-- C1 amended: every recorded private result has the exact result's
column names, every private row's grouping key is the schema-typed
conversion of some exact row's grouping key (keys are converted per
schema, e.g. 0/1 to False/True, and whole groups may be absent), and
every aggregate value is an integer noised count. -/
theorem private_result_structure_amended :
    ∀ p ∈ recordedPrivateRuns,
      p.2.colNames = cell10Exact.colNames
      ∧ ∀ r ∈ p.2.rows,
          (∃ er ∈ cell10Exact.rows,
            r.take 1 = convertKeys pumsSchema ["married"] (er.take 1))
          ∧ (r[(1 : Nat)]?).any isIntValue = true := by
  decide

/-- Witness for C1 amended: the epsilon 1 run of notebook cell-4 is a
recorded private run, its column names match the exact result, and its
first row's aggregate cell is an integer. -/
theorem private_result_structure_amended_witness :
    (1, cell4Result) ∈ recordedPrivateRuns
    ∧ [Value.bool false, Value.int 443] ∈ cell4Result.rows
    ∧ cell4Result.colNames = cell10Exact.colNames
    ∧ ([Value.bool false, Value.int 443][(1 : Nat)]?).any isIntValue = true := by
  have hmem : (1, cell4Result) ∈ recordedPrivateRuns :=
    List.mem_cons_self _ _
  have hrow : [Value.bool false, Value.int 443] ∈ cell4Result.rows := by decide
  have h := private_result_structure_amended (1, cell4Result) hmem
  exact ⟨hmem, hrow, h.1, (h.2 _ hrow).2⟩

/-- C8: the married column is declared boolean, the exact reader returns
its grouping keys as the raw integers 0/1 (cell-10), while the private
reader returns them as False/True (cell-4); the private keys are exactly
the schema-typed conversion of the exact keys, not the verbatim values,
and the modelled pipeline produces boolean keys for every noise stream. -/
theorem boolean_keys_converted :
    marriedCol.ctype = .boolean
    ∧ pumsSchema.find? (fun c => c.name == "married") = some marriedCol
    ∧ cell10Exact.rows.map (fun r => r.take 1) = [[.int 0], [.int 1]]
    ∧ cell4Result.rows.map (fun r => r.take 1) = [[.bool false], [.bool true]]
    ∧ cell10Exact.rows.map
        (fun r => convertKeys pumsSchema ["married"] (r.take 1)) =
        cell4Result.rows.map (fun r => r.take 1)
    ∧ cell4Result.rows.map (fun r => r.take 1) ≠
        cell10Exact.rows.map (fun r => r.take 1)
    ∧ ∀ (noise : Nat → Rat) (pos : Nat), ∃ (rs : ResultSet) (p : Nat),
        execute demoReader pumsSchema demoQuery 1 noise pos = .ok (rs, p)
        ∧ rs.rows.map (fun r => r.take 1) = [[.bool false], [.bool true]] := by
  refine ⟨by decide, by decide, by decide, by decide, by decide, by decide, ?_⟩
  intro noise pos
  exact ⟨_, _, demo_execute_eval noise pos, rfl⟩

/-- C9: the demo query is supported and epsilon 0.1 is positive, yet the
recorded private result at epsilon 0.1 (notebook cell-8) has strictly
fewer group rows than the exact result (notebook cell-10): the married =
True group, whose true count is 549 of 1000 rows, is entirely absent from
the private result. -/
theorem group_rows_can_be_dropped :
    classify demoQuery pumsSchema =
      .ok ⟨"PUMS.PUMS", ["married"], [("n", .count, .col "pid")]⟩
    ∧ ((0 : Rat) < 1 / 10)
    ∧ cell8SmallEps.rows.length = 1
    ∧ cell10Exact.rows.length = 2
    ∧ cell8SmallEps.rows.length < cell10Exact.rows.length
    ∧ [Value.int 1, Value.int 549] ∈ cell10Exact.rows
    ∧ cell8SmallEps.rows = [[Value.bool false, Value.int 485]]
    ∧ [Value.bool false, Value.int 485].take 1 ≠
        convertKeys pumsSchema ["married"] [Value.int 1] := by
  refine ⟨?_, by norm_num, by decide, by decide, by decide, by decide, by decide,
    by decide⟩
  simp [classify, demoQuery, pumsSchema, admissibleAgg,
    ageCol, sexCol, educCol, raceCol, incomeCol, marriedCol, pidCol]

end PgMgmt
